import Mathlib

/-!
Shallow embedding of the "Prompt to JSON Generator" application core
(`src/index.tsx` and the batch-generation module), together with proofs of
the specification's claims about it.

The embedding models:
* `CONFIG_FIELDS` — the static Field Registry (source lines 11–47);
* `generateAndDisplayJSON` — the Form State Projector (source lines 164–185),
  as a pure function from form state to the ordered key/value list of the
  output JSON object (JavaScript objects preserve string-key insertion
  order, so a `List (String × String)` is a faithful model of the object
  built by the source);
* `handleEnhanceClick` — the enhancement flow (source lines 190–246), as a
  state transformer over a `UIState`, parameterised by the outcome of the
  single external network/parse step;
* `generatePromptsBatch` — the batch generator module.

JavaScript's `String.prototype.trim` is modelled by `jsTrim`, and
`JSON.parse` output by the inductive `Json`.
-/

/-- Kind of a registry field: a select control or a free-text input
(the source's `type: "select" | "text"`). -/
inductive FieldType where
  | select
  | text
deriving DecidableEq, Repr

/-- One entry of `CONFIG_FIELDS` (source lines 11–47): display label, control
kind, ordered option list (empty for text fields, which have no `options`
property), and optional placeholder. -/
structure FieldConfig where
  label : String
  type : FieldType
  options : List String
  placeholder : Option String
deriving DecidableEq, Repr

/-- The Field Registry, translated from `CONFIG_FIELDS` in the source
(lines 11–47), in source order. -/
def CONFIG_FIELDS : List (String × FieldConfig) :=
  [ ("cameraMovement",
      { label := "Camera Movement", type := FieldType.select,
        options := ["Static", "Pan", "Tilt", "Zoom", "Dolly", "Handheld", "Crane", "Steadicam", "Drone"],
        placeholder := none }),
    ("lightingMode",
      { label := "Lighting Mode", type := FieldType.select,
        options := ["Natural", "Studio", "Backlit", "Low-key", "High-key", "Cinematic", "Ambient", "Hard Light"],
        placeholder := none }),
    ("mood",
      { label := "Mood", type := FieldType.select,
        options := ["Cheerful", "Dramatic", "Calm", "Mysterious", "Romantic", "Tense", "Nostalgic", "Epic"],
        placeholder := none }),
    ("colorPalette",
      { label := "Color Palette", type := FieldType.select,
        options := ["Warm", "Cool", "Monochrome", "Pastel", "Vibrant", "Muted", "Sepia", "Neon"],
        placeholder := none }),
    ("subjectFocus",
      { label := "Subject Focus", type := FieldType.select,
        options := ["Face", "Full Body", "Object", "Group", "Macro", "Wide Shot", "Close-up", "Medium Shot"],
        placeholder := none }),
    ("environmentalDetails",
      { label := "Environmental Details", type := FieldType.text,
        options := [],
        placeholder := some "e.g., foggy morning, neon-lit city" }),
    ("background",
      { label := "Background", type := FieldType.text,
        options := [],
        placeholder := some "e.g., bustling market, serene forest" }) ]

/-- The registry's attribute keys, in registry order.  After `buildUI` runs,
`dom.configControls` holds exactly one control per key of `CONFIG_FIELDS`
(source lines 120–145), so membership in this list models the truthiness
test `dom.configControls[key]`. -/
def registryKeys : List String := CONFIG_FIELDS.map Prod.fst

/-- Whitespace predicate of JavaScript's `String.prototype.trim`
(space, tab, line terminators, vertical tab, form feed, no-break space,
byte-order mark). -/
def isJsWhitespace (c : Char) : Bool :=
  c = ' ' || c = '\t' || c = '\n' || c = '\r' ||
  c = '\x0B' || c = '\x0C' || c = '\u00A0' || c = '\uFEFF'

/-- Character-list form of `trim`: drop whitespace from the front, then from
the back. -/
def trimChars (cs : List Char) : List Char :=
  List.rdropWhile isJsWhitespace (cs.dropWhile isJsWhitespace)

/-- Model of JavaScript's `String.prototype.trim`. -/
def jsTrim (s : String) : String :=
  String.mk (trimChars s.data)

/-- FormState: the reserved free-text prompt (the textarea's value) together
with the values of the attribute controls, keyed by registry key.  A key
missing from `fields` models an empty control. -/
structure FormState where
  prompt : String
  fields : List (String × String)
deriving DecidableEq, Repr

/-- Current value of the attribute control for `key` (empty when absent). -/
def FormState.get (s : FormState) (key : String) : String :=
  (s.fields.lookup key).getD ""

/-- Assign `value` to the control for `key` (the source's
`dom.configControls[key].value = value`): overwrite the first binding, or
add one when the key is absent. -/
def setKey : List (String × String) → String → String → List (String × String)
  | [], k, v => [(k, v)]
  | (k', v') :: rest, k, v =>
    if k' = k then (k', v) :: rest else (k', v') :: setKey rest k v

/-- FormState after assigning `value` to the control for `key`. -/
def FormState.setField (s : FormState) (key value : String) : FormState :=
  { s with fields := setKey s.fields key value }

/-- Body of the projection loop of `generateAndDisplayJSON` (source lines
176–181), over an explicit field list: emit `(key, trimmed value)` for each
field whose trimmed value is non-empty.  The source iterates
`dom.configControls`, whose keys are those of `CONFIG_FIELDS` in insertion
order. -/
def projectFields (s : FormState) : List (String × FieldConfig) → List (String × String)
  | [] => []
  | kc :: rest =>
    let value := jsTrim (s.get kc.1)
    if value = "" then projectFields s rest
    else (kc.1, value) :: projectFields s rest

/-- The Form State Projector (source lines 164–185): the ordered key/value
pairs of the output JSON object — the trimmed prompt first when non-empty,
then each registry field whose trimmed value is non-empty, in registry
order. -/
def generateAndDisplayJSON (s : FormState) : List (String × String) :=
  (if jsTrim s.prompt = "" then [] else [("prompt", jsTrim s.prompt)]) ++
    projectFields s CONFIG_FIELDS

/-- JSON values, as produced by a successful `JSON.parse`. -/
inductive Json where
  | str (s : String)
  | num (n : Int)
  | bool (b : Bool)
  | null
  | arr (elems : List Json)
  | obj (entries : List (String × Json))
deriving Repr

/-- Model of `Object.entries` applied to a `JSON.parse` result (source line
231): own enumerable entries of an object; index/element pairs for an array;
index/character pairs for a string; no entries for numbers and booleans;
`none` for `null`, on which `Object.entries` throws a `TypeError`. -/
def jsonEntries : Json → Option (List (String × Json))
  | Json.obj entries => some entries
  | Json.arr elems => some (elems.enum.map (fun iv => (toString iv.1, iv.2)))
  | Json.str s => some (s.data.enum.map (fun ic => (toString ic.1, Json.str (String.mk [ic.2]))))
  | Json.num _ => some []
  | Json.bool _ => some []
  | Json.null => none

/-- The merge loop of `handleEnhanceClick` (source lines 231–235): for each
entry of the parsed response, assign the value to the matching control when
the key has a control (a registry key) and the value is a string; skip every
other entry. -/
def mergeEnhancedData (s : FormState) (enhancedData : List (String × Json)) : FormState :=
  enhancedData.foldl
    (fun st kv =>
      match kv with
      | (key, Json.str v) =>
        if registryKeys.contains key then st.setField key v else st
      | _ => st)
    s

/-- A property of the response schema built at source lines 205–216: the
`Type.STRING` marker and the description text. -/
structure SchemaProperty where
  type : String
  description : String
deriving DecidableEq, Repr

/-- The EnhancementSchema's `properties` object (source lines 207–215): one
string-typed property per `CONFIG_FIELDS` entry, in registry order, whose
description names the label and, for select fields only, lists the options. -/
def schemaProperties : List (String × SchemaProperty) :=
  CONFIG_FIELDS.map fun kc =>
    (kc.1,
      { type := "STRING",
        description :=
          "Suggest a value for " ++ kc.2.label ++ ". " ++
            (if kc.2.type = FieldType.select then
              "Choose one of: " ++ String.intercalate ", " kc.2.options
            else "") })

/-- Outcome of the single external step of `handleEnhanceClick`: the
`generateContent` request either throws (transport/service error) or yields
a response text, whose `JSON.parse` outcome is `none` (throws) or a value. -/
inductive NetResult where
  | err
  | ok (parsed : Option Json)
deriving Repr

/-- Message of the validation alert (source line 195). -/
def emptyPromptAlertMessage : String := "Please enter a prompt first."

/-- Message of the catch-block alert (source line 239). -/
def errorAlertMessage : String :=
  "An error occurred while enhancing the prompt. Please check the console for details."

/-- Idle label of the enhance button (source lines 112 and 244). -/
def idleButtonLabel : String := "Enhance with AI"

/-- Loading label of the enhance button (source line 201). -/
def loadingButtonLabel : String := "Enhancing..."

/-- Observable state of the page relevant to the enhancement flow: the form,
the enhance button's disabled flag and label, the rendered JSON output, the
alerts shown, the console errors logged, and a count of network requests
issued. -/
structure UIState where
  form : FormState
  buttonDisabled : Bool
  buttonLabel : String
  jsonOutput : List (String × String)
  alerts : List String
  consoleErrors : List String
  networkCalls : Nat
deriving DecidableEq, Repr

/-- The enhancement flow `handleEnhanceClick` (source lines 190–246), with
the external request/parse outcome supplied as `net`. -/
def handleEnhanceClick (net : NetResult) (ui : UIState) : UIState :=
  let prompt := jsTrim ui.form.prompt
  if prompt = "" then
    { ui with alerts := ui.alerts ++ [emptyPromptAlertMessage] }
  else
    let loading : UIState :=
      { ui with buttonDisabled := true, buttonLabel := loadingButtonLabel }
    let sent : UIState := { loading with networkCalls := loading.networkCalls + 1 }
    let afterTry : UIState :=
      match net with
      | NetResult.err =>
        { sent with
          alerts := sent.alerts ++ [errorAlertMessage],
          consoleErrors := sent.consoleErrors ++ ["Error enhancing prompt:"] }
      | NetResult.ok none =>
        { sent with
          alerts := sent.alerts ++ [errorAlertMessage],
          consoleErrors := sent.consoleErrors ++ ["Error enhancing prompt:"] }
      | NetResult.ok (some parsed) =>
        match jsonEntries parsed with
        | none =>
          { sent with
            alerts := sent.alerts ++ [errorAlertMessage],
            consoleErrors := sent.consoleErrors ++ ["Error enhancing prompt:"] }
        | some enhancedData =>
          { sent with form := mergeEnhancedData sent.form enhancedData }
    { afterTry with
      jsonOutput := generateAndDisplayJSON afterTry.form,
      buttonDisabled := false,
      buttonLabel := idleButtonLabel }

/-- Form state of the batch-generation module: the object is only read at
its `keyword` field. -/
structure BatchFormState where
  keyword : String
deriving DecidableEq, Repr

/-- The batch generator (the unnamed module): one string per index
`0 ≤ i < quantity`, numbered from 1.  `Array.from` with a natural `length`
yields exactly that many elements. -/
def generatePromptsBatch (formState : BatchFormState) (quantity : Nat) : List String :=
  (List.range quantity).map fun i =>
    "Generated prompt " ++ toString (i + 1) ++ " for " ++ formState.keyword

/-- Spec-side description of the merge (step 6 of the Enhancement Client,
stated in the spec's words, to be compared with `mergeEnhancedData`): fold
the response entries, recording the value of the last entry for key `k`
that is string-valued and registry-recognized. -/
def specMergeStep (k : String) (acc : Option String) (kv : String × Json) : Option String :=
  match kv with
  | (key, Json.str v) =>
    if key = k ∧ registryKeys.contains key then some v else acc
  | _ => acc

/-- Spec-side merged value for key `k`: the last recognized string write, if
any. -/
def specMergedValue (enhancedData : List (String × Json)) (k : String) : Option String :=
  enhancedData.foldl (specMergeStep k) none

/-- The spec's worked example of a service response: cameraMovement is a
recognized string, mood is a number, unknownKey is not a registry key. -/
def exampleResponseEntries : List (String × Json) :=
  [("cameraMovement", Json.str "Pan"), ("mood", Json.num 7), ("unknownKey", Json.str "x")]

/-- Initial-run test on character lists: does the first list occur at the
start of the second? -/
def charsStartWith : List Char → List Char → Bool
  | [], _ => true
  | _ :: _, [] => false
  | a :: as, b :: bs => (a == b) && charsStartWith as bs

/-- Occurrence test on character lists: does the first list occur
contiguously anywhere in the second? -/
def charsContain (needle : List Char) : List Char → Bool
  | [] => charsStartWith needle []
  | b :: bs => charsStartWith needle (b :: bs) || charsContain needle bs

/-- Substring occurrence test on strings, used to state that a schema
description embeds an option list. -/
def containsSubstr (needle hay : String) : Bool :=
  charsContain needle.data hay.data

/-- Value read from the form at an output key: the reserved prompt for
the key "prompt", otherwise the attribute control's value. -/
def rawFormValue (s : FormState) (k : String) : String :=
  if k = "prompt" then s.prompt else s.get k

/-- Spec-side key order of the OutputDocument (stated in the spec's words,
to be compared with `generateAndDisplayJSON`): the reserved prompt key
first, then the registry keys in registry order, keeping exactly the keys
whose trimmed value is non-empty. -/
def specProjectedKeys (s : FormState) : List String :=
  ("prompt" :: registryKeys).filter fun k => decide (jsTrim (rawFormValue s k) ≠ "")

/-- Spec-side reinterpretation of the projection as a FormState (the spec's
`project_roundtrip`): same keys and values, with the reserved prompt taken
from the output's "prompt" entry and the attribute entries kept as the
field map. -/
def project_roundtrip (s : FormState) : FormState :=
  { prompt := ((generateAndDisplayJSON s).lookup "prompt").getD "",
    fields := (generateAndDisplayJSON s).filter fun kv => decide (kv.1 ≠ "prompt") }


theorem lookup_setKey_self (l : List (String × String)) (k v : String) :
    (setKey l k v).lookup k = some v := by
  induction l with
  | nil => simp [setKey, List.lookup]
  | cons hd tl ih =>
    obtain ⟨k', v'⟩ := hd
    by_cases h : k' = k
    · simp [setKey, h, List.lookup]
    · simp only [setKey, if_neg h, List.lookup]
      have : (k == k') = false := by
        simp [beq_eq_false_iff_ne]
        exact fun hk => h hk.symm
      simp [this, ih]

theorem lookup_setKey_ne (l : List (String × String)) (k k' v : String) (h : k' ≠ k) :
    (setKey l k v).lookup k' = l.lookup k' := by
  induction l with
  | nil =>
    simp only [setKey, List.lookup]
    have : (k' == k) = false := by simp [beq_eq_false_iff_ne, h]
    simp [this]
  | cons hd tl ih =>
    obtain ⟨k₁, v₁⟩ := hd
    by_cases h₁ : k₁ = k
    · subst h₁
      have : (k' == k₁) = false := by simp [beq_eq_false_iff_ne, h]
      simp [setKey, List.lookup, this]
    · simp [setKey, if_neg h₁, List.lookup]
      by_cases h₂ : k' = k₁
      · subst h₂; simp
      · have : (k' == k₁) = false := by simp [beq_eq_false_iff_ne, h₂]
        simp [this, ih]

theorem get_setField_self (s : FormState) (k v : String) :
    (s.setField k v).get k = v := by
  simp [FormState.get, FormState.setField, lookup_setKey_self]

theorem get_setField_ne (s : FormState) (k k' v : String) (h : k' ≠ k) :
    (s.setField k v).get k' = s.get k' := by
  simp [FormState.get, FormState.setField, lookup_setKey_ne _ _ _ _ h]

theorem setField_prompt (s : FormState) (k v : String) :
    (s.setField k v).prompt = s.prompt := rfl

theorem mergeEnhancedData_cons_str (s : FormState) (key v : String)
    (rest : List (String × Json)) :
    mergeEnhancedData s ((key, Json.str v) :: rest) =
      mergeEnhancedData (if registryKeys.contains key then s.setField key v else s) rest :=
  rfl

theorem specMergedValue_foldl (k : String) (enhancedData : List (String × Json)) :
    ∀ a : Option String,
      enhancedData.foldl (specMergeStep k) a =
        match specMergedValue enhancedData k with
        | some v => some v
        | none => a := by
  induction enhancedData with
  | nil => intro a; simp [specMergedValue]
  | cons e rest ih =>
    intro a
    have hcons : specMergedValue (e :: rest) k =
        match specMergedValue rest k with
        | some v => some v
        | none => specMergeStep k none e := by
      show (e :: rest).foldl (specMergeStep k) none = _
      rw [List.foldl_cons, ih (specMergeStep k none e)]
    rw [List.foldl_cons, ih (specMergeStep k a e), hcons]
    cases hrest : specMergedValue rest k with
    | some v => simp
    | none =>
      simp only
      obtain ⟨key, j⟩ := e
      cases j with
      | str v =>
        simp only [specMergeStep]
        split
        next h => simp
        next h => simp
      | num n => simp [specMergeStep]
      | bool b => simp [specMergeStep]
      | null => simp [specMergeStep]
      | arr xs => simp [specMergeStep]
      | obj es => simp [specMergeStep]

theorem specMergedValue_cons (k : String) (e : String × Json)
    (rest : List (String × Json)) :
    specMergedValue (e :: rest) k =
      match specMergedValue rest k with
      | some v => some v
      | none => specMergeStep k none e := by
  show (e :: rest).foldl (specMergeStep k) none = _
  rw [List.foldl_cons, specMergedValue_foldl]

theorem mergeEnhancedData_get (s : FormState) (enhancedData : List (String × Json))
    (k : String) :
    (mergeEnhancedData s enhancedData).get k =
      (specMergedValue enhancedData k).getD (s.get k) := by
  induction enhancedData generalizing s with
  | nil => simp [mergeEnhancedData, specMergedValue]
  | cons e rest ih =>
    obtain ⟨key, j⟩ := e
    rw [specMergedValue_cons]
    cases j with
    | str v =>
      rw [mergeEnhancedData_cons_str]
      by_cases hmem : registryKeys.contains key = true
      · rw [if_pos hmem, ih]
        cases hrest : specMergedValue rest k with
        | some w => simp
        | none =>
          have hmem' : key ∈ registryKeys := by simpa using hmem
          by_cases hk : key = k
          · subst hk
            simp [specMergeStep, hmem', get_setField_self]
          · rw [get_setField_ne s key k v (fun h => hk h.symm)]
            simp [specMergeStep, hk]
      · rw [if_neg hmem, ih]
        cases hrest : specMergedValue rest k with
        | some w => simp
        | none =>
          have hmem' : key ∉ registryKeys := by simpa using hmem
          simp [specMergeStep, hmem']
    | num n =>
      rw [show mergeEnhancedData s ((key, Json.num n) :: rest) = mergeEnhancedData s rest from
        rfl, ih]
      cases hrest : specMergedValue rest k with
      | some w => simp
      | none => simp [specMergeStep]
    | bool b =>
      rw [show mergeEnhancedData s ((key, Json.bool b) :: rest) = mergeEnhancedData s rest from
        rfl, ih]
      cases hrest : specMergedValue rest k with
      | some w => simp
      | none => simp [specMergeStep]
    | null =>
      rw [show mergeEnhancedData s ((key, Json.null) :: rest) = mergeEnhancedData s rest from
        rfl, ih]
      cases hrest : specMergedValue rest k with
      | some w => simp
      | none => simp [specMergeStep]
    | arr xs =>
      rw [show mergeEnhancedData s ((key, Json.arr xs) :: rest) = mergeEnhancedData s rest from
        rfl, ih]
      cases hrest : specMergedValue rest k with
      | some w => simp
      | none => simp [specMergeStep]
    | obj es =>
      rw [show mergeEnhancedData s ((key, Json.obj es) :: rest) = mergeEnhancedData s rest from
        rfl, ih]
      cases hrest : specMergedValue rest k with
      | some w => simp
      | none => simp [specMergeStep]

theorem mergeEnhancedData_prompt (s : FormState) (enhancedData : List (String × Json)) :
    (mergeEnhancedData s enhancedData).prompt = s.prompt := by
  induction enhancedData generalizing s with
  | nil => rfl
  | cons e rest ih =>
    obtain ⟨key, j⟩ := e
    cases j with
    | str v =>
      rw [mergeEnhancedData_cons_str]
      by_cases hmem : registryKeys.contains key = true
      · rw [if_pos hmem, ih]; rfl
      · rw [if_neg hmem, ih]
    | num n =>
      rw [show mergeEnhancedData s ((key, Json.num n) :: rest) = mergeEnhancedData s rest from
        rfl, ih]
    | bool b =>
      rw [show mergeEnhancedData s ((key, Json.bool b) :: rest) = mergeEnhancedData s rest from
        rfl, ih]
    | null =>
      rw [show mergeEnhancedData s ((key, Json.null) :: rest) = mergeEnhancedData s rest from
        rfl, ih]
    | arr xs =>
      rw [show mergeEnhancedData s ((key, Json.arr xs) :: rest) = mergeEnhancedData s rest from
        rfl, ih]
    | obj es =>
      rw [show mergeEnhancedData s ((key, Json.obj es) :: rest) = mergeEnhancedData s rest from
        rfl, ih]

theorem rdropWhile_leading {α : Type} (p : α → Bool) (l : List α) :
    List.rdropWhile p l <+: l := by
  rw [← List.reverse_suffix]
  simp only [List.rdropWhile, List.reverse_reverse]
  exact List.dropWhile_suffix p

theorem dropWhile_eq_self_of_leading {α : Type} (p : α → Bool) {l₁ l₂ : List α}
    (hp : l₁ <+: l₂) (h : l₂.dropWhile p = l₂) : l₁.dropWhile p = l₁ := by
  rw [List.dropWhile_eq_self_iff] at h ⊢
  intro hl
  have hlen : 0 < l₂.length := lt_of_lt_of_le hl hp.length_le
  have hg := hp.get_eq hl
  rw [hg]
  exact h hlen

theorem trimChars_dropWhile (l : List Char) :
    (trimChars l).dropWhile isJsWhitespace = trimChars l := by
  have h1 : (l.dropWhile isJsWhitespace).dropWhile isJsWhitespace =
      l.dropWhile isJsWhitespace := List.dropWhile_idempotent _ _
  exact dropWhile_eq_self_of_leading _ (rdropWhile_leading _ _) h1

theorem trimChars_idem (l : List Char) : trimChars (trimChars l) = trimChars l := by
  show List.rdropWhile isJsWhitespace ((trimChars l).dropWhile isJsWhitespace) = trimChars l
  rw [trimChars_dropWhile]
  show List.rdropWhile isJsWhitespace
      (List.rdropWhile isJsWhitespace ((l.dropWhile isJsWhitespace))) = _
  rw [List.rdropWhile_idempotent]
  rfl

theorem jsTrim_idem (s : String) : jsTrim (jsTrim s) = jsTrim s := by
  show String.mk (trimChars (String.mk (trimChars s.data)).data) = _
  rw [show (String.mk (trimChars s.data)).data = trimChars s.data from rfl, trimChars_idem]
  rfl

theorem jsTrim_empty : jsTrim "" = "" := rfl

theorem projectFields_keys (s : FormState) (fields : List (String × FieldConfig)) :
    (projectFields s fields).map Prod.fst =
      (fields.map Prod.fst).filter fun k => decide (jsTrim (s.get k) ≠ "") := by
  induction fields with
  | nil => rfl
  | cons kc rest ih =>
    simp only [projectFields, List.map_cons, List.filter_cons]
    by_cases h : jsTrim (s.get kc.1) = ""
    · simp [h, ih]
    · simp [h, ih]

theorem projectFields_mem (s : FormState) (fields : List (String × FieldConfig))
    (k v : String) (h : (k, v) ∈ projectFields s fields) :
    v = jsTrim (s.get k) ∧ v ≠ "" ∧ k ∈ fields.map Prod.fst := by
  induction fields with
  | nil => simp [projectFields] at h
  | cons kc rest ih =>
    simp only [projectFields] at h
    by_cases hc : jsTrim (s.get kc.1) = ""
    · rw [if_pos hc] at h
      have := ih h
      exact ⟨this.1, this.2.1, by simp [this.2.2]⟩
    · rw [if_neg hc] at h
      rcases List.mem_cons.mp h with heq | htail
      · have hk : k = kc.1 := congrArg Prod.fst heq
        have hv : v = jsTrim (s.get kc.1) := congrArg Prod.snd heq
        subst hk
        exact ⟨hv, by rw [hv]; exact hc, by simp⟩
      · have := ih htail
        exact ⟨this.1, this.2.1, by simp [this.2.2]⟩

theorem projectFields_congr (s₁ s₂ : FormState) (fields : List (String × FieldConfig))
    (h : ∀ kc ∈ fields, jsTrim (s₁.get kc.1) = jsTrim (s₂.get kc.1)) :
    projectFields s₁ fields = projectFields s₂ fields := by
  induction fields with
  | nil => rfl
  | cons kc rest ih =>
    have hhd : jsTrim (s₁.get kc.1) = jsTrim (s₂.get kc.1) := h kc (by simp)
    have htl := ih fun kc' hm => h kc' (by simp [hm])
    simp only [projectFields, hhd, htl]

theorem projectFields_lookup_none (s : FormState) (fields : List (String × FieldConfig))
    (k : String) (h : k ∉ fields.map Prod.fst) :
    (projectFields s fields).lookup k = none := by
  induction fields with
  | nil => rfl
  | cons kc rest ih =>
    have hk : k ≠ kc.1 := fun he => h (by simp [he])
    have htl : k ∉ rest.map Prod.fst := fun hm => h (by simp [hm])
    simp only [projectFields]
    by_cases hc : jsTrim (s.get kc.1) = ""
    · rw [if_pos hc]; exact ih htl
    · rw [if_neg hc]
      have hbeq : (k == kc.1) = false := by simp [beq_eq_false_iff_ne, hk]
      simp [List.lookup, hbeq, ih htl]

theorem projectFields_lookup (s : FormState) (fields : List (String × FieldConfig))
    (k : String) (hnd : (fields.map Prod.fst).Nodup) (hm : k ∈ fields.map Prod.fst) :
    (projectFields s fields).lookup k =
      if jsTrim (s.get k) = "" then none else some (jsTrim (s.get k)) := by
  induction fields with
  | nil => simp at hm
  | cons kc rest ih =>
    have hnd' : (rest.map Prod.fst).Nodup := (List.nodup_cons.mp hnd).2
    by_cases hk : k = kc.1
    · have hnotin : k ∉ rest.map Prod.fst := by
        rw [hk]; exact (List.nodup_cons.mp hnd).1
      simp only [projectFields]
      by_cases hc : jsTrim (s.get kc.1) = ""
      · rw [if_pos hc, projectFields_lookup_none s rest k hnotin, hk, if_pos hc]
      · rw [if_neg hc, hk]
        simp [hc]
    · have hm' : k ∈ rest.map Prod.fst := by
        rcases List.mem_cons.mp hm with he | ht
        · exact absurd he hk
        · exact ht
      simp only [projectFields]
      by_cases hc : jsTrim (s.get kc.1) = ""
      · rw [if_pos hc]; exact ih hnd' hm'
      · rw [if_neg hc]
        have hbeq : (k == kc.1) = false := by simp [beq_eq_false_iff_ne, hk]
        simp only [List.lookup, hbeq]
        exact ih hnd' hm'

theorem projectFields_filter_ne_prompt (s : FormState)
    (fields : List (String × FieldConfig)) (h : "prompt" ∉ fields.map Prod.fst) :
    (projectFields s fields).filter (fun kv => decide (kv.1 ≠ "prompt")) =
      projectFields s fields := by
  induction fields with
  | nil => rfl
  | cons kc rest ih =>
    have hk : kc.1 ≠ "prompt" := fun he => h (by simp [he])
    have htl : "prompt" ∉ rest.map Prod.fst := fun hm => h (by simp [hm])
    simp only [projectFields]
    by_cases hc : jsTrim (s.get kc.1) = ""
    · rw [if_pos hc]; exact ih htl
    · rw [if_neg hc]
      have hdec : decide ((kc.1, jsTrim (s.get kc.1)).1 ≠ "prompt") = true := by
        simp [hk]
      rw [List.filter_cons, if_pos (by rw [hdec]), ih htl]

/-- C1: for every parsed enhancement response mapping, the merge writes into
FormState exactly the entries whose key is a registry key and whose value is
a string (the last such write per key wins, overwriting the prior value),
and discards every other entry without error; in particular, for the
response with cameraMovement "Pan", mood 7 and unknownKey "x", only
cameraMovement is set, to "Pan". -/
theorem C1_merge_applies_exactly_recognized_string_entries :
    (∀ (s : FormState) (enhancedData : List (String × Json)) (k : String),
        (mergeEnhancedData s enhancedData).get k =
          (specMergedValue enhancedData k).getD (s.get k)) ∧
    (∀ s : FormState,
        (mergeEnhancedData s exampleResponseEntries).get "cameraMovement" = "Pan" ∧
        ∀ k : String, k ≠ "cameraMovement" →
          (mergeEnhancedData s exampleResponseEntries).get k = s.get k) := by
  refine ⟨mergeEnhancedData_get, fun s => ⟨?_, fun k hk => ?_⟩⟩
  · rw [mergeEnhancedData_get,
      show specMergedValue exampleResponseEntries "cameraMovement" = some "Pan" from by decide]
    rfl
  · have h1 : ¬("cameraMovement" = k ∧ registryKeys.contains "cameraMovement" = true) :=
      fun hc => hk hc.1.symm
    have h3 : ¬("unknownKey" = k ∧ registryKeys.contains "unknownKey" = true) :=
      fun hc => (by decide : ¬registryKeys.contains "unknownKey" = true) hc.2
    rw [mergeEnhancedData_get]
    have hnone : specMergedValue exampleResponseEntries k = none := by
      simp only [specMergedValue, exampleResponseEntries, List.foldl, specMergeStep]
      rw [if_neg h1, if_neg h3]
    rw [hnone]
    rfl

theorem C1_witness :
    (mergeEnhancedData { prompt := "p", fields := [] } exampleResponseEntries).get "mood" =
      ({ prompt := "p", fields := [] } : FormState).get "mood" :=
  (C1_merge_applies_exactly_recognized_string_entries.2
    { prompt := "p", fields := [] }).2 "mood" (by decide)

/-- C8: the merge never writes the reserved prompt component of FormState —
for every response it leaves `prompt` unchanged, and a response entry keyed
"prompt" is ignored entirely (it is not a registry key). -/
theorem C8_merge_never_writes_prompt :
    ∀ (s : FormState) (enhancedData : List (String × Json)),
      (mergeEnhancedData s enhancedData).prompt = s.prompt ∧
      mergeEnhancedData s [("prompt", Json.str "hijack")] = s := by
  intro s enhancedData
  refine ⟨mergeEnhancedData_prompt s enhancedData, ?_⟩
  rw [show mergeEnhancedData s [("prompt", Json.str "hijack")] =
        mergeEnhancedData
          (if registryKeys.contains "prompt" then s.setField "prompt" "hijack" else s) []
      from rfl]
  rw [if_neg (by decide)]
  rfl

/-- C2: when the trimmed prompt is empty, the enhance handler only appends
the validation alert: FormState is byte-for-byte unchanged, no network call
is made, and no other state changes. -/
theorem C2_empty_prompt_fails_fast_without_network_call
    (net : NetResult) (ui : UIState) (h : jsTrim ui.form.prompt = "") :
    handleEnhanceClick net ui = { ui with alerts := ui.alerts ++ [emptyPromptAlertMessage] } := by
  simp only [handleEnhanceClick]
  rw [if_pos h]

theorem C2_witness :
    handleEnhanceClick NetResult.err
        { form := { prompt := " \t ", fields := [("mood", "Epic")] }, buttonDisabled := false,
          buttonLabel := "Enhance with AI", jsonOutput := [], alerts := [],
          consoleErrors := [], networkCalls := 0 } =
      { form := { prompt := " \t ", fields := [("mood", "Epic")] }, buttonDisabled := false,
        buttonLabel := "Enhance with AI", jsonOutput := [],
        alerts := [emptyPromptAlertMessage], consoleErrors := [], networkCalls := 0 } :=
  C2_empty_prompt_fails_fast_without_network_call NetResult.err _ (by decide)

/-- C5: when the request throws or the response body fails to parse as JSON,
the handler reports the enhancement error to the user and FormState is left
exactly as it was before the call (the merge never starts, so there are no
partial writes). -/
theorem C5_failure_preserves_form_and_reports
    (net : NetResult) (ui : UIState) (hp : ¬jsTrim ui.form.prompt = "")
    (hfail : net = NetResult.err ∨ net = NetResult.ok none) :
    (handleEnhanceClick net ui).form = ui.form ∧
    (handleEnhanceClick net ui).alerts = ui.alerts ++ [errorAlertMessage] := by
  rcases hfail with h | h
  · subst h
    simp only [handleEnhanceClick]
    rw [if_neg hp]
    exact ⟨rfl, rfl⟩
  · subst h
    simp only [handleEnhanceClick]
    rw [if_neg hp]
    exact ⟨rfl, rfl⟩

theorem C5_witness :
    (handleEnhanceClick (NetResult.ok none)
        { form := { prompt := "hello", fields := [] }, buttonDisabled := false,
          buttonLabel := "Enhance with AI", jsonOutput := [], alerts := [],
          consoleErrors := [], networkCalls := 0 }).form =
      ({ prompt := "hello", fields := [] } : FormState) ∧
    (handleEnhanceClick (NetResult.ok none)
        { form := { prompt := "hello", fields := [] }, buttonDisabled := false,
          buttonLabel := "Enhance with AI", jsonOutput := [], alerts := [],
          consoleErrors := [], networkCalls := 0 }).alerts = [errorAlertMessage] :=
  C5_failure_preserves_form_and_reports (NetResult.ok none) _ (by decide) (Or.inr rfl)

/-- C6: when the non-empty-prompt precondition passes, then whatever the
request/parse/merge outcome, the handler re-runs the Form State Projector on
the final form and restores the enhance button to its idle label and enabled
state. -/
theorem C6_finally_rerenders_and_restores_button
    (net : NetResult) (ui : UIState) (hp : ¬jsTrim ui.form.prompt = "") :
    (handleEnhanceClick net ui).jsonOutput =
      generateAndDisplayJSON (handleEnhanceClick net ui).form ∧
    (handleEnhanceClick net ui).buttonDisabled = false ∧
    (handleEnhanceClick net ui).buttonLabel = idleButtonLabel := by
  simp only [handleEnhanceClick]
  rw [if_neg hp]
  exact ⟨rfl, rfl, rfl⟩

theorem C6_witness :
    (handleEnhanceClick (NetResult.ok (some (Json.obj [("mood", Json.str "Epic")])))
        { form := { prompt := "hello", fields := [] }, buttonDisabled := false,
          buttonLabel := "Enhance with AI", jsonOutput := [], alerts := [],
          consoleErrors := [], networkCalls := 0 }).jsonOutput =
      generateAndDisplayJSON
        (handleEnhanceClick (NetResult.ok (some (Json.obj [("mood", Json.str "Epic")])))
          { form := { prompt := "hello", fields := [] }, buttonDisabled := false,
            buttonLabel := "Enhance with AI", jsonOutput := [], alerts := [],
            consoleErrors := [], networkCalls := 0 }).form ∧
    (handleEnhanceClick (NetResult.ok (some (Json.obj [("mood", Json.str "Epic")])))
        { form := { prompt := "hello", fields := [] }, buttonDisabled := false,
          buttonLabel := "Enhance with AI", jsonOutput := [], alerts := [],
          consoleErrors := [], networkCalls := 0 }).buttonDisabled = false ∧
    (handleEnhanceClick (NetResult.ok (some (Json.obj [("mood", Json.str "Epic")])))
        { form := { prompt := "hello", fields := [] }, buttonDisabled := false,
          buttonLabel := "Enhance with AI", jsonOutput := [], alerts := [],
          consoleErrors := [], networkCalls := 0 }).buttonLabel = idleButtonLabel :=
  C6_finally_rerenders_and_restores_button
    (NetResult.ok (some (Json.obj [("mood", Json.str "Epic")]))) _ (by decide)

/-- C3: every entry of the projection has a non-empty value, a key drawn
from the reserved prompt key or the registry keys, and a value equal to the
trimmed form value at that key (so a key whose trimmed value is empty never
appears, and no empty-string value ever appears). -/
theorem C3_projection_values_nonempty_keys_known
    (s : FormState) (k v : String) (h : (k, v) ∈ generateAndDisplayJSON s) :
    v ≠ "" ∧ k ∈ "prompt" :: registryKeys ∧ v = jsTrim (rawFormValue s k) := by
  unfold generateAndDisplayJSON at h
  rcases List.mem_append.mp h with h1 | h2
  · by_cases hp : jsTrim s.prompt = ""
    · rw [if_pos hp] at h1
      simp at h1
    · rw [if_neg hp] at h1
      have heq : (k, v) = ("prompt", jsTrim s.prompt) := List.mem_singleton.mp h1
      have hk : k = "prompt" := congrArg Prod.fst heq
      have hv : v = jsTrim s.prompt := congrArg Prod.snd heq
      refine ⟨by rw [hv]; exact hp, by simp [hk], ?_⟩
      rw [hv, hk]
      simp [rawFormValue]
  · obtain ⟨hveq, hvne, hkmem⟩ := projectFields_mem s CONFIG_FIELDS k v h2
    have hkreg : k ∈ registryKeys := hkmem
    have hknp : k ≠ "prompt" :=
      fun he => (by decide : "prompt" ∉ registryKeys) (he ▸ hkreg)
    exact ⟨hvne, by simp [hkreg], by rw [hveq]; simp [rawFormValue, hknp]⟩

theorem C3_witness :
    ("Epic" : String) ≠ "" ∧
    ("mood" : String) ∈ "prompt" :: registryKeys ∧
    ("Epic" : String) =
      jsTrim (rawFormValue { prompt := "hi", fields := [("mood", " Epic ")] } "mood") :=
  C3_projection_values_nonempty_keys_known
    { prompt := "hi", fields := [("mood", " Epic ")] } "mood" "Epic" (by decide)

/-- C4: the projection's keys appear in a fixed order — the reserved prompt
key first when its trimmed value is non-empty, then the registry keys in
registry order, skipping exactly the keys whose trimmed value is empty. -/
theorem C4_projection_key_order (s : FormState) :
    (generateAndDisplayJSON s).map Prod.fst = specProjectedKeys s := by
  have hnp : "prompt" ∉ registryKeys := by decide
  unfold generateAndDisplayJSON specProjectedKeys
  rw [List.map_append, List.filter_cons]
  have hfields :
      (projectFields s CONFIG_FIELDS).map Prod.fst =
        registryKeys.filter fun k => decide (jsTrim (rawFormValue s k) ≠ "") := by
    rw [projectFields_keys]
    refine List.filter_congr ?_
    intro k hk
    have hknp : k ≠ "prompt" := fun he => hnp (he ▸ hk)
    simp [rawFormValue, hknp]
  by_cases hp : jsTrim s.prompt = ""
  · rw [if_pos hp]
    have hcond : decide (jsTrim (rawFormValue s "prompt") ≠ "") = false := by
      simp [rawFormValue, hp]
    rw [hcond]
    simp only [Bool.false_eq_true, if_false, List.map_nil, List.nil_append]
    exact hfields
  · rw [if_neg hp]
    have hcond : decide (jsTrim (rawFormValue s "prompt") ≠ "") = true := by
      simp [rawFormValue, hp]
    rw [hcond]
    simp only [if_true, List.map_cons, List.map_nil, List.singleton_append]
    rw [hfields]

/-- C7: the EnhancementSchema's properties are exactly the registry's
attribute keys in registry order (never the reserved prompt key), each typed
as string, and each description embeds the ordered option list precisely for
select (enum) fields — free-text fields get no option list. -/
theorem C7_schema_properties_match_registry :
    schemaProperties.map Prod.fst = CONFIG_FIELDS.map Prod.fst ∧
    (schemaProperties.map Prod.fst).contains "prompt" = false ∧
    (schemaProperties.all fun e => e.2.type == "STRING") = true ∧
    ((schemaProperties.zip CONFIG_FIELDS).all fun z =>
        (z.1.1 == z.2.1) &&
          (if z.2.2.type = FieldType.select then
            containsSubstr ("Choose one of: " ++ String.intercalate ", " z.2.2.options)
              z.1.2.description
          else !containsSubstr "Choose one of: " z.1.2.description)) = true := by
  refine ⟨by decide, by decide, by decide, by decide⟩

/-- C10: the batch generator always succeeds with exactly `quantity`
strings, the i-th (0-based index i, numbered i+1 in the text) being
"Generated prompt ", the number, " for ", and the keyword; quantity 0 yields
the empty list. -/
theorem C10_generatePromptsBatch_length_and_elements
    (formState : BatchFormState) (quantity i : Nat) :
    (generatePromptsBatch formState quantity).length = quantity ∧
    (generatePromptsBatch formState quantity)[i]? =
      (if i < quantity then
        some ("Generated prompt " ++ toString (i + 1) ++ " for " ++ formState.keyword)
      else none) ∧
    generatePromptsBatch formState 0 = [] := by
  refine ⟨by simp [generatePromptsBatch], ?_, rfl⟩
  by_cases h : i < quantity
  · simp [generatePromptsBatch, List.getElem?_range, h]
  · simp [generatePromptsBatch, List.getElem?_range, h]
    omega

/-- C9: the projection is idempotent — reinterpreting the OutputDocument as
a FormState and projecting again yields the same OutputDocument. -/
theorem C9_project_idempotent (s : FormState) :
    generateAndDisplayJSON (project_roundtrip s) = generateAndDisplayJSON s := by
  have hnp : "prompt" ∉ registryKeys := by decide
  have hnd : registryKeys.Nodup := by decide
  have hprompt : (project_roundtrip s).prompt =
      (if jsTrim s.prompt = "" then "" else jsTrim s.prompt) := by
    unfold project_roundtrip generateAndDisplayJSON
    by_cases hp : jsTrim s.prompt = ""
    · rw [if_pos hp, if_pos hp]
      simp only [List.nil_append]
      rw [projectFields_lookup_none s CONFIG_FIELDS "prompt" hnp]
      rfl
    · rw [if_neg hp, if_neg hp]
      simp only [List.singleton_append, List.lookup_cons_self]
      rfl
  have hfields : (project_roundtrip s).fields = projectFields s CONFIG_FIELDS := by
    unfold project_roundtrip generateAndDisplayJSON
    by_cases hp : jsTrim s.prompt = ""
    · rw [if_pos hp]
      simp only [List.nil_append]
      exact projectFields_filter_ne_prompt s CONFIG_FIELDS hnp
    · rw [if_neg hp]
      simp only [List.singleton_append, List.filter_cons]
      rw [if_neg (by simp)]
      exact projectFields_filter_ne_prompt s CONFIG_FIELDS hnp
  have hget : ∀ k ∈ registryKeys,
      jsTrim ((project_roundtrip s).get k) = jsTrim (s.get k) := by
    intro k hk
    have h1 : (project_roundtrip s).get k =
        ((projectFields s CONFIG_FIELDS).lookup k).getD "" := by
      unfold FormState.get
      rw [hfields]
    rw [h1, projectFields_lookup s CONFIG_FIELDS k hnd hk]
    by_cases hc : jsTrim (s.get k) = ""
    · rw [if_pos hc, hc]
      rfl
    · rw [if_neg hc,
        show (some (jsTrim (s.get k))).getD "" = jsTrim (s.get k) from rfl]
      exact jsTrim_idem _
  have h2 : projectFields (project_roundtrip s) CONFIG_FIELDS =
      projectFields s CONFIG_FIELDS :=
    projectFields_congr _ _ _ fun kc hm => hget kc.1 (List.mem_map_of_mem Prod.fst hm)
  unfold generateAndDisplayJSON
  rw [h2, hprompt]
  by_cases hp : jsTrim s.prompt = ""
  · rw [if_pos hp, if_pos jsTrim_empty, if_pos hp]
  · rw [if_neg hp, jsTrim_idem, if_neg hp]
